import Mathlib

set_option maxRecDepth 8000

namespace SuiteGen

/-! Shallow embedding of the per-repository integration pipeline of
src/main.rs (wasm-generate-testsuite).  Every subprocess invocation the
source issues is modelled by an oracle environment recording whether the
command exits successfully and, for the commands whose stdout is used,
what it prints; the filesystem reads that feed change detection are
modelled by an explicit file-content map.  File contents distinguish
UTF-8 text from non-UTF-8 byte data, because fs::read_to_string fails
on the latter. -/

/-- Configuration of one repository, mirroring struct Repo of the source.
The serde defaults of the source are the Lean field defaults. -/
structure Repo where
  name : String
  url : String
  parent : Option String := none
  directive : Option String := none
  included_tests : List String := []
  excluded_tests : List String := []
  skip_wast : Bool := false
  skip_wpt : Bool := false
  skip_js : Bool := false
  deriving Repr, DecidableEq

/-- Global configuration, mirroring struct Config of the source. -/
structure Config where
  harness_directive : Option String := none
  directive : Option String := none
  included_tests : List String := []
  excluded_tests : List String := []
  repos : List Repo := []
  deriving Repr

/-- One lock entry, mirroring struct LockRepo of the source. -/
structure LockRepo where
  name : String
  commit : String
  deriving Repr, DecidableEq

/-- The lock store, mirroring struct Lock of the source. -/
structure Lock where
  repos : List LockRepo := []
  deriving Repr, DecidableEq

namespace Lock

/-- Mirrors Lock::find_commit: the commit of the first entry whose name
matches. -/
def find_commit (l : Lock) (name : String) : Option String :=
  (l.repos.find? fun x => x.name == name).map fun x => x.commit

/-- Helper for set_commit: iter_mut().find updates the first entry whose
name matches in place; if none matches, a new entry is pushed at the end. -/
def set_commit_list (name commit : String) : List LockRepo → List LockRepo
  | [] => [⟨name, commit⟩]
  | x :: xs =>
    if x.name == name then ⟨x.name, commit⟩ :: xs
    else x :: set_commit_list name commit xs

/-- Mirrors Lock::set_commit. -/
def set_commit (l : Lock) (name commit : String) : Lock :=
  ⟨set_commit_list name commit l.repos⟩

theorem find?_set_commit_list_self (n c : String) :
    ∀ xs : List LockRepo,
      (set_commit_list n c xs).find? (fun x => x.name == n) = some ⟨n, c⟩
  | [] => by simp [set_commit_list]
  | x :: xs => by
    cases hb : x.name == n
    · simp only [set_commit_list, hb, Bool.false_eq_true, if_false]
      rw [List.find?_cons_of_neg _ (by simp [hb])]
      exact find?_set_commit_list_self n c xs
    · have hx : x.name = n := by simpa using hb
      simp [set_commit_list, hb, List.find?_cons_of_pos, hx]

theorem find?_set_commit_list_other (n c m : String) (hm : m ≠ n) :
    ∀ xs : List LockRepo,
      (set_commit_list n c xs).find? (fun x => x.name == m)
        = xs.find? (fun x => x.name == m)
  | [] => by
    simp [set_commit_list, List.find?_cons, (by simpa using hm.symm : ¬(n = m))]
  | x :: xs => by
    cases hb : x.name == n
    · simp only [set_commit_list, hb, Bool.false_eq_true, if_false]
      cases hxm : x.name == m
      · rw [List.find?_cons_of_neg _ (by simp [hxm]),
          List.find?_cons_of_neg _ (by simp [hxm])]
        exact find?_set_commit_list_other n c m hm xs
      · rw [List.find?_cons_of_pos _ (by simp [hxm]),
          List.find?_cons_of_pos _ (by simp [hxm])]
    · have hx : x.name = n := by simpa using hb
      simp [set_commit_list, hb, List.find?_cons, hx,
        (by simpa using hm.symm : ¬(n = m))]

theorem set_commit_list_length_of_mem (n c : String) :
    ∀ xs : List LockRepo, (xs.any fun x => x.name == n) = true →
      (set_commit_list n c xs).length = xs.length
  | [], h => by simp at h
  | x :: xs, h => by
    by_cases hx : x.name == n
    · simp [set_commit_list, hx]
    · have h2 : (xs.any fun x => x.name == n) = true := by
        simpa [List.any_cons, hx] using h
      simp [set_commit_list, hx, set_commit_list_length_of_mem n c xs h2]

theorem set_commit_list_append_of_absent (n c : String) :
    ∀ xs : List LockRepo, (xs.any fun x => x.name == n) = false →
      set_commit_list n c xs = xs ++ [⟨n, c⟩]
  | [], _ => by simp [set_commit_list]
  | x :: xs, h => by
    have hx : (x.name == n) = false := by
      cases hb : x.name == n
      · rfl
      · simp [List.any_cons, hb] at h
    have h2 : (xs.any fun x => x.name == n) = false := by
      simpa [List.any_cons, hx] using h
    simp [set_commit_list, hx, set_commit_list_append_of_absent n c xs h2]

end Lock

/-- C10: after Lock::set_commit(name, commit), find_commit(name) returns
Some(commit); an existing entry for that name is updated in place (the
entry count is unchanged, no duplicate is appended); lookups of every
other name are unchanged; and when no entry for the name exists, a single
new entry is appended at the end. -/
theorem lock_set_commit_spec (l : Lock) (n c : String) :
    (l.set_commit n c).find_commit n = some c
    ∧ (∀ m, m ≠ n → (l.set_commit n c).find_commit m = l.find_commit m)
    ∧ ((l.repos.any fun x => x.name == n) = true →
        (l.set_commit n c).repos.length = l.repos.length)
    ∧ ((l.repos.any fun x => x.name == n) = false →
        (l.set_commit n c).repos = l.repos ++ [⟨n, c⟩]) := by
  refine ⟨?_, ?_, ?_, ?_⟩
  · simp [Lock.set_commit, Lock.find_commit, Lock.find?_set_commit_list_self]
  · intro m hm
    simp [Lock.set_commit, Lock.find_commit,
      Lock.find?_set_commit_list_other n c m hm]
  · intro h
    simpa [Lock.set_commit] using Lock.set_commit_list_length_of_mem n c l.repos h
  · intro h
    simpa [Lock.set_commit] using Lock.set_commit_list_append_of_absent n c l.repos h

/-- Witness for C10 at a concrete lock store. -/
theorem lock_set_commit_spec_witness :
    (Lock.set_commit ⟨[⟨"a", "1"⟩, ⟨"b", "2"⟩]⟩ "a" "9").find_commit "a" = some "9"
    ∧ (Lock.set_commit ⟨[⟨"a", "1"⟩, ⟨"b", "2"⟩]⟩ "a" "9").find_commit "b"
        = (Lock.find_commit ⟨[⟨"a", "1"⟩, ⟨"b", "2"⟩]⟩ "b")
    ∧ (Lock.set_commit ⟨[⟨"a", "1"⟩, ⟨"b", "2"⟩]⟩ "a" "9").repos.length
        = (Lock.repos ⟨[⟨"a", "1"⟩, ⟨"b", "2"⟩]⟩).length := by
  refine ⟨(lock_set_commit_spec ⟨[⟨"a", "1"⟩, ⟨"b", "2"⟩]⟩ "a" "9").1,
    (lock_set_commit_spec ⟨[⟨"a", "1"⟩, ⟨"b", "2"⟩]⟩ "a" "9").2.1 "b" (by decide),
    (lock_set_commit_spec ⟨[⟨"a", "1"⟩, ⟨"b", "2"⟩]⟩ "a" "9").2.2.1 (by decide)⟩

/-! File contents and change detection. -/

/-- Content of a file on disk: UTF-8 text, or bytes that are not valid
UTF-8. -/
inductive FileData where
  | text (s : String)
  | binary (bytes : List Nat)
  deriving Repr, DecidableEq

/-- Models fs::read_to_string on an optional file: a missing file (none)
or non-UTF-8 content fails, UTF-8 text succeeds. -/
def read_to_string : Option FileData → Option String
  | some (FileData.text s) => some s
  | _ => none

/-- Mirrors fn diff of the source: if both reads succeed the files differ
iff the strings differ; any read failure counts as a difference. -/
def diff (a b : Option FileData) : Bool :=
  match read_to_string a, read_to_string b with
  | some sa, some sb => sa != sb
  | _, _ => true

/-- C9: diff reports a pair changed whenever either side fails to read as
a UTF-8 string (missing or not valid UTF-8); in particular byte-identical
non-UTF-8 files are still reported changed; and when both reads succeed
the pair is changed iff the two string contents differ. -/
theorem diff_spec :
    (∀ a b : Option FileData,
      (read_to_string a = none ∨ read_to_string b = none) → diff a b = true)
    ∧ (∀ bs : List Nat,
      diff (some (FileData.binary bs)) (some (FileData.binary bs)) = true)
    ∧ (∀ sa sb : String,
      diff (some (FileData.text sa)) (some (FileData.text sb)) = true ↔ sa ≠ sb) := by
  refine ⟨?_, ?_, ?_⟩
  · intro a b h
    cases hra : read_to_string a <;> cases hrb : read_to_string b <;>
      simp [diff, hra, hrb] <;> simp [hra, hrb] at h
  · intro bs
    simp [diff, read_to_string]
  · intro sa sb
    simp [diff, read_to_string]

/-- Witness for C9 at concrete file contents. -/
theorem diff_spec_witness :
    diff none (some (FileData.text "x")) = true
    ∧ diff (some (FileData.binary [255])) (some (FileData.binary [255])) = true := by
  exact ⟨diff_spec.1 none (some (FileData.text "x")) (Or.inl rfl),
    diff_spec.2.1 [255]⟩

/-! Path helpers.  Path::file_name and Path::extension of the source are
modelled over the character list of the path, with the slash as the
component separator and the dot as the extension separator. -/

/-- Split a character list at every occurrence of a separator character. -/
def split_on_char (c : Char) : List Char → List (List Char)
  | [] => [[]]
  | x :: xs =>
    let r := split_on_char c xs
    if x == c then [] :: r
    else
      match r with
      | [] => [[x]]
      | y :: ys => (x :: y) :: ys

/-- Models Path::file_name: the last slash-separated component. -/
def file_name (p : String) : String :=
  String.mk ((split_on_char '/' p.data).getLastD [])

/-- Models Path::extension: the part of the file name after the last dot;
none when the name holds no dot, or starts with its only dot. -/
def extension (p : String) : Option String :=
  let name := (split_on_char '/' p.data).getLastD []
  match split_on_char '.' name with
  | [] => none
  | [_] => none
  | parts =>
    if name.headD ' ' == '.' && parts.length == 2 then none
    else some (String.mk (parts.getLastD []))

/-- One file found under test/core: its path relative to the repository
root, and its on-disk content. -/
structure SrcFile where
  path : String
  content : FileData
  deriving Repr, DecidableEq

/-- The filesystem state change detection reads: the files found under
test/core of the current repository, and the content found at the
corresponding path inside the parent clone (none when missing). -/
structure FsEnv where
  core_files : List SrcFile
  parent_file : String → Option FileData

/-- Mirrors the change-set loop of build_repo (the for loop over
find("test/core")): a wast file of a root repository is always included;
a wast file of a child repository is included when diff against the
parent file at the same relative path reports a change.  The base name,
not the full path, is recorded. -/
def changed_files (repo : Repo) (fs : FsEnv) : List String :=
  fs.core_files.filterMap fun f =>
    if extension f.path != some "wast" then none
    else
      let test_name := file_name f.path
      match repo.parent with
      | some _ =>
        if diff (some f.content) (fs.parent_file f.path) then some test_name
        else none
      | none => some test_name

/-- The change set as the claim words it: a wast file of a child
repository is changed iff it does not exist on the parent or its content
differs from the parent file at the same relative path. -/
def claimed_changed_files (repo : Repo) (fs : FsEnv) : List String :=
  fs.core_files.filterMap fun f =>
    if extension f.path != some "wast" then none
    else
      match repo.parent with
      | some _ =>
        match fs.parent_file f.path with
        | none => some (file_name f.path)
        | some pc => if f.content != pc then some (file_name f.path) else none
      | none => some (file_name f.path)

/-- The change set as amended: a wast file of a child repository is
changed iff it does not exist on the parent, either file cannot be read
as UTF-8 text, or the two text contents differ. -/
def amended_changed_files (repo : Repo) (fs : FsEnv) : List String :=
  fs.core_files.filterMap fun f =>
    if extension f.path != some "wast" then none
    else
      match repo.parent with
      | some _ =>
        if (fs.parent_file f.path).isNone
            || (read_to_string (some f.content)).isNone
            || (read_to_string (fs.parent_file f.path)).isNone
            || read_to_string (some f.content) != read_to_string (fs.parent_file f.path)
        then some (file_name f.path)
        else none
      | none => some (file_name f.path)

theorem diff_eq_disjunction (a b : Option FileData) :
    diff a b
      = ((read_to_string a).isNone || (read_to_string b).isNone
          || read_to_string a != read_to_string b) := by
  cases ha : read_to_string a <;> cases hb : read_to_string b <;>
    simp [diff, ha, hb]
  next sa sb =>
    by_cases hsc : sa = sb
    · subst hsc
      simp
    · simp [bne, beq_eq_decide, hsc]

/-- The repository used by the C4 counterexample: a child with a parent
configured. -/
def repo_child : Repo :=
  { name := "child", url := "u", parent := some "spec" }

/-- The filesystem used by the C4 counterexample: one wast file whose
bytes are not valid UTF-8, byte-identical on the parent side. -/
def fs_binary_same : FsEnv :=
  { core_files := [⟨"test/core/a.wast", FileData.binary [255]⟩],
    parent_file := fun _ => some (FileData.binary [255]) }

/-- C4 counterexample: for a child repository holding one wast file that
is byte-identical on the parent but not valid UTF-8, the computed change
set includes the file although its content does not differ and it exists
on the parent — the claimed change set is empty there. -/
theorem changed_files_claim_cex :
    changed_files repo_child fs_binary_same = ["a.wast"]
    ∧ claimed_changed_files repo_child fs_binary_same = [] := by
  exact ⟨rfl, rfl⟩

/-- C4 (amended): for a root repository the change set lists the base
name of every wast file under test/core; for a child repository it lists
exactly the wast base names whose parent file is missing, whose content
on either side is not readable as UTF-8 text, or whose text contents
differ. -/
theorem changed_files_spec (repo : Repo) (fs : FsEnv) :
    changed_files repo fs = amended_changed_files repo fs := by
  have hfun : ∀ f : SrcFile,
      (if extension f.path != some "wast" then none
       else
         let test_name := file_name f.path
         match repo.parent with
         | some _ =>
           if diff (some f.content) (fs.parent_file f.path) then some test_name
           else none
         | none => some test_name)
      = (if extension f.path != some "wast" then none
         else
           match repo.parent with
           | some _ =>
             if (fs.parent_file f.path).isNone
                 || (read_to_string (some f.content)).isNone
                 || (read_to_string (fs.parent_file f.path)).isNone
                 || read_to_string (some f.content)
                     != read_to_string (fs.parent_file f.path)
             then some (file_name f.path)
             else none
           | none => some (file_name f.path)) := by
    intro f
    cases hext : extension f.path != some "wast"
    · cases hpar : repo.parent
      · simp [hext]
      · simp only [hext, Bool.false_eq_true, if_false]
        rw [diff_eq_disjunction]
        cases hpf : fs.parent_file f.path
        · simp [read_to_string]
        · simp [hpf]
    · simp [hext]
  simp only [changed_files, amended_changed_files]
  exact List.filterMap_congr fun f _ => hfun f

/-! File selection (the filter inside copy_tests). -/

/-- A compiled pattern set is modelled by the match functions of its
patterns; RegexSet::is_match holds when some pattern matches. -/
def set_is_match (patterns : List (String → Bool)) (path : String) : Bool :=
  patterns.any fun p => p path

/-- Mirrors the filter in copy_tests: a path is skipped (continue) when
it matches no include pattern or matches some exclude pattern, and copied
otherwise. -/
def selected (incl excl : List (String → Bool)) (path : String) : Bool :=
  if !set_is_match incl path || set_is_match excl path then false else true

/-- C5: a path is selected iff it matches at least one include pattern
and no exclude pattern; a path matching an include and an exclude pattern
is never selected; a path matching no include pattern is never selected,
whatever the exclude set. -/
theorem selected_spec (incl excl : List (String → Bool)) (path : String) :
    (selected incl excl path = true ↔
      (∃ p ∈ incl, p path = true) ∧ ∀ q ∈ excl, q path = false)
    ∧ ((∃ p ∈ incl, p path = true) → (∃ q ∈ excl, q path = true) →
        selected incl excl path = false)
    ∧ ((∀ p ∈ incl, p path = false) → selected incl excl path = false) := by
  have hsel : selected incl excl path
      = (set_is_match incl path && !set_is_match excl path) := by
    cases h1 : set_is_match incl path <;> cases h2 : set_is_match excl path <;>
      simp [selected, h1, h2]
  have hinc : set_is_match incl path = true ↔ ∃ p ∈ incl, p path = true := by
    simp [set_is_match, List.any_eq_true]
  have hexc : set_is_match excl path = false ↔ ∀ q ∈ excl, q path = false := by
    simp [set_is_match, List.any_eq_false]
  refine ⟨?_, ?_, ?_⟩
  · rw [hsel]
    simp only [Bool.and_eq_true, Bool.not_eq_true']
    rw [hinc, hexc]
  · intro hp hq
    have h1 : set_is_match incl path = true := hinc.mpr hp
    have h2 : set_is_match excl path = true := by
      simpa [set_is_match, List.any_eq_true] using hq
    rw [hsel, h1, h2]
    rfl
  · intro hall
    have h1 : set_is_match incl path = false := by
      simpa [set_is_match, List.any_eq_false] using hall
    rw [hsel, h1]
    rfl

/-- Witness for C5 at concrete pattern sets. -/
theorem selected_spec_witness :
    selected [fun s => s == "a"] [fun s => s == "a"] "a" = false
    ∧ selected [] [fun s => s == "b"] "a" = false := by
  refine ⟨(selected_spec [fun s => s == "a"] [fun s => s == "a"] "a").2.1
      ⟨fun s => s == "a", by simp, by decide⟩
      ⟨fun s => s == "a", by simp, by decide⟩,
    (selected_spec [] [fun s => s == "b"] "a").2.2 (fun p hp => by simp at hp)⟩

/-! The per-repository pipeline.  Every subprocess the source spawns is
recorded in a command trace; an oracle environment decides the outcome of
each command the source issues. -/

/-- One spawned subprocess: a git invocation with its arguments, or the
test-generation tool (test/build.py --use-sync --js ./js --html ./wpt). -/
inductive Cmd where
  | git (args : List String)
  | tool
  deriving Repr, DecidableEq

/-- Mirrors enum Error of the source. -/
inductive Error where
  | io
  | utf8
  | failedProcess (name stdout stderr : String)
  deriving Repr, DecidableEq

/-- Mirrors enum Merge of the source. -/
inductive Merge where
  | unmerged
  | merged
  | conflicted
  deriving Repr, DecidableEq

/-- Position of the working copy, as tracked by the embedding. -/
inductive WorkTree where
  | atBase
  | midMerge
  | mergedTree
  deriving Repr, DecidableEq

/-- Outcome oracle: for each command the source can issue, whether it
exits successfully, and for the two log commands what they print. -/
structure GitEnv where
  fetch_origin : Bool := true
  checkout_master : Bool := true
  reset_base : Bool := true
  log_base_hash : Option String := some "abc1234"
  fetch_parent : Bool := true
  checkout_try_merge : Bool := true
  reset_to_base : Bool := true
  merge : Bool := true
  checkout_ours : Bool := true
  add_document : Bool := true
  merge_continue : Bool := true
  merge_abort : Bool := true
  reset_after_abort : Bool := true
  build1 : Bool := true
  reset_retry : Bool := true
  build2 : Bool := true
  log_final_message : Option String := some "abc1234 message"
  deriving Repr

/-- Models str::trim: drop leading and trailing whitespace. -/
def trim_string (s : String) : String :=
  String.mk (((s.data.dropWhile Char.isWhitespace).reverse.dropWhile
    Char.isWhitespace).reverse)

/-- Issue one git command: the command joins the trace; a failing exit
becomes Error::FailedProcess as in fn run. -/
def run_git (tr : List Cmd) (args : List String) (ok : Bool) :
    List Cmd × Except Error Unit :=
  (tr ++ [Cmd.git args],
    if ok then Except.ok () else Except.error (Error.failedProcess "git" "" ""))

/-- Issue one git command whose stdout is used: some output is success,
none is failure. -/
def run_git_out (tr : List Cmd) (args : List String) (out : Option String) :
    List Cmd × Except Error String :=
  (tr ++ [Cmd.git args],
    match out with
    | some s => Except.ok s
    | none => Except.error (Error.failedProcess "git" "" ""))

/-- Invoke the test-generation tool; its failure is observed as a
boolean, never propagated (the call sites use is_ok / is_err). -/
def run_tool (tr : List Cmd) (ok : Bool) : List Cmd × Bool :=
  (tr ++ [Cmd.tool], ok)

/-- Sequencing with error propagation (the ? operator), threading the
command trace. -/
def andThen (x : List Cmd × Except Error α)
    (f : α → List Cmd → List Cmd × Except Error β) :
    List Cmd × Except Error β :=
  match x with
  | (tr, Except.error e) => (tr, Except.error e)
  | (tr, Except.ok a) => f a tr

/-- The conflict override (lines 298-302 of the source): force the local
version of the document directory, stage it, continue the merge.  The
three commands run lazily (short-circuit ||) and their failures are
observed, not propagated. -/
def override_continue (env : GitEnv) (tr : List Cmd) : List Cmd × Bool :=
  let s1 := run_git tr ["checkout", "--ours", "document"] env.checkout_ours
  match s1 with
  | (tr, Except.error _) => (tr, false)
  | (tr, Except.ok _) =>
    let s2 := run_git tr ["add", "document"] env.add_document
    match s2 with
    | (tr, Except.error _) => (tr, false)
    | (tr, Except.ok _) =>
      let s3 := run_git tr ["-c", "core.editor=true", "merge", "--continue"]
        env.merge_continue
      match s3 with
      | (tr, Except.error _) => (tr, false)
      | (tr, Except.ok _) => (tr, true)

/-- Mirrors the merge section of build_repo (lines 289-316).  Returns
the merge outcome and the position of the working copy. -/
def merge_resolve (repo : Repo) (commit_base_hash : String) (env : GitEnv)
    (tr : List Cmd) : List Cmd × Except Error (Merge × WorkTree) :=
  match repo.parent with
  | none => (tr, Except.ok (Merge.unmerged, WorkTree.atBase))
  | some parent =>
    andThen (run_git tr ["fetch", "parent"] env.fetch_parent) fun _ tr =>
    andThen (run_git tr ["checkout", "try-merge"] env.checkout_try_merge) fun _ tr =>
    andThen (run_git tr ["reset", commit_base_hash, "--hard"] env.reset_to_base) fun _ tr =>
    let message := "Merging " ++ repo.name ++ ":" ++ commit_base_hash ++ "with " ++ parent
    let s := run_git tr ["merge", "-q", "parent/master", "-m", message] env.merge
    match s with
    | (tr, Except.ok _) => (tr, Except.ok (Merge.merged, WorkTree.mergedTree))
    | (tr, Except.error _) =>
      let so := override_continue env tr
      if so.2 then (so.1, Except.ok (Merge.merged, WorkTree.mergedTree))
      else
        andThen (run_git so.1 ["merge", "--abort"] env.merge_abort) fun _ tr =>
        andThen (run_git tr ["reset", commit_base_hash, "--hard"] env.reset_after_abort) fun _ tr =>
        (tr, Except.ok (Merge.conflicted, WorkTree.atBase))

/-- Mirrors the build section of build_repo (lines 319-337): one tool
invocation; on failure with a parent configured, hard-reset to the base
hash and retry once; on failure with no parent, built is false. -/
def build_phase (repo : Repo) (commit_base_hash : String) (env : GitEnv)
    (wt : WorkTree) (tr : List Cmd) : List Cmd × Except Error (Bool × WorkTree) :=
  let s := run_tool tr env.build1
  if s.2 then (s.1, Except.ok (true, wt))
  else
    match repo.parent with
    | some _ =>
      andThen (run_git s.1 ["reset", commit_base_hash, "--hard"] env.reset_retry) fun _ tr =>
      let s2 := run_tool tr env.build2
      (s2.1, Except.ok (s2.2, WorkTree.atBase))
    | none => (s.1, Except.ok (false, wt))

/-- Status of one successfully processed repository, mirroring struct
Status of the source. -/
structure Status where
  commit_base_hash : String
  commit_final_message : String
  merged : Merge
  built : Bool
  deriving Repr, DecidableEq

/-- Mirrors the copy_tests call sites (lines 402-409): the categories
whose copy is attempted, in order. -/
def copy_phase (repo : Repo) (built : Bool) : List String :=
  (if !repo.skip_wast then ["wast"] else [])
    ++ (if built && !repo.skip_wpt then ["wpt"] else [])
    ++ (if built && !repo.skip_js then ["js"] else [])

/-- Mirrors the directive emission (lines 411-428).  Paths are rendered
relative to the process root: the source writes them as
../../tests/js/... from inside repos/<name>. -/
def directive_writes (config : Config) (repo : Repo) : List (String × String) :=
  (match config.harness_directive with
   | some hd => [("tests/js/" ++ repo.name ++ "/harness/directives.txt", hd)]
   | none => [])
  ++ (let directives := (config.directive.getD "") ++ (repo.directive.getD "")
      if directives == "" then []
      else [("tests/js/" ++ repo.name ++ "/directives.txt", directives)])

/-- Everything build_repo produces, beyond the trace: the status value
returned to main, together with the observable intermediate facts of the
run. -/
structure RunResult where
  status : Status
  base_treeish : String
  work_tree_after_merge : WorkTree
  work_tree_final : WorkTree
  changed : List String
  included_files : List String
  excluded_files : List String
  copies : List String
  writes : List (String × String)
  deriving Repr, DecidableEq

/-- Mirrors fn build_repo after the clone section (lines 274-437): sync,
merge, build, final log, change detection, selection set construction,
category copying and directive emission.  The fs argument supplies the
file contents read by change detection. -/
def build_repo (repo : Repo) (config : Config) (lock : Lock) (env : GitEnv)
    (fs : FsEnv) : List Cmd × Except Error RunResult :=
  andThen (run_git [] ["fetch", "origin"] env.fetch_origin) fun _ tr =>
  let base_treeish := (lock.find_commit repo.name).getD "origin/master"
  andThen (run_git tr ["checkout", "master"] env.checkout_master) fun _ tr =>
  andThen (run_git tr ["reset", base_treeish, "--hard"] env.reset_base) fun _ tr =>
  andThen (run_git_out tr ["log", "--pretty=%h", "-n", "1"] env.log_base_hash) fun out tr =>
  let commit_base_hash := trim_string out
  andThen (merge_resolve repo commit_base_hash env tr) fun mr tr =>
  andThen (build_phase repo commit_base_hash env mr.2 tr) fun bw tr =>
  andThen (run_git_out tr ["log", "--oneline", "-n", "1"] env.log_final_message)
    fun commit_final_message tr =>
  let changed := changed_files repo fs
  let included_files := changed ++ ["harness/"] ++ repo.included_tests
  let excluded_files := config.excluded_tests ++ repo.excluded_tests
  let copies := copy_phase repo bw.1
  let writes := if bw.1 && !repo.skip_js then directive_writes config repo else []
  (tr, Except.ok {
    status := {
      commit_base_hash := commit_base_hash,
      commit_final_message := commit_final_message,
      merged := mr.1,
      built := bw.1 },
    base_treeish := base_treeish,
    work_tree_after_merge := mr.2,
    work_tree_final := bw.2,
    changed := changed,
    included_files := included_files,
    excluded_files := excluded_files,
    copies := copies,
    writes := writes })

theorem andThen_eq {α β} (x : List Cmd × Except Error α)
    (f : α → List Cmd → List Cmd × Except Error β) :
    andThen x f
      = match x.2 with
        | Except.error e => (x.1, Except.error e)
        | Except.ok a => f a x.1 := by
  rcases x with ⟨tr, e | a⟩ <;> rfl

theorem andThen_ok {α β} {x : List Cmd × Except Error α}
    {f : α → List Cmd → List Cmd × Except Error β} {r : β}
    (h : (andThen x f).2 = Except.ok r) :
    ∃ a, x.2 = Except.ok a ∧ (f a x.1).2 = Except.ok r := by
  rcases x with ⟨tr, e | a⟩
  · simp [andThen] at h
  · exact ⟨a, rfl, h⟩

theorem override_continue_trace1 (env : GitEnv) (tr : List Cmd) :
    (override_continue env tr).1 = tr ++ (override_continue env []).1 := by
  cases hco : env.checkout_ours <;> cases had : env.add_document <;>
    cases hmc : env.merge_continue <;>
    simp [override_continue, run_git, hco, had, hmc]

theorem override_continue_trace2 (env : GitEnv) (tr : List Cmd) :
    (override_continue env tr).2 = (override_continue env []).2 := by
  cases hco : env.checkout_ours <;> cases had : env.add_document <;>
    cases hmc : env.merge_continue <;>
    simp [override_continue, run_git, hco, had, hmc]

theorem merge_resolve_trace (repo : Repo) (base : String) (env : GitEnv)
    (tr : List Cmd) :
    (merge_resolve repo base env tr).1 = tr ++ (merge_resolve repo base env []).1
    ∧ (merge_resolve repo base env tr).2 = (merge_resolve repo base env []).2 := by
  cases hpar : repo.parent
  · simp [merge_resolve, hpar]
  · cases h1 : env.fetch_parent
    · simp [merge_resolve, hpar, run_git, andThen, h1]
    · cases h2 : env.checkout_try_merge
      · simp [merge_resolve, hpar, run_git, andThen, h1, h2]
      · cases h3 : env.reset_to_base
        · simp [merge_resolve, hpar, run_git, andThen, h1, h2, h3]
        · cases hm : env.merge
          · cases hco : env.checkout_ours <;> cases had : env.add_document <;>
              cases hmc : env.merge_continue <;>
              cases hab : env.merge_abort <;> cases hra : env.reset_after_abort <;>
              simp [merge_resolve, hpar, run_git, andThen, override_continue,
                h1, h2, h3, hm, hco, had, hmc, hab, hra, List.append_assoc]
          · simp [merge_resolve, hpar, run_git, andThen, h1, h2, h3, hm]

theorem merge_resolve_trace1 (repo : Repo) (base : String) (env : GitEnv)
    (tr : List Cmd) :
    (merge_resolve repo base env tr).1 = tr ++ (merge_resolve repo base env []).1 :=
  (merge_resolve_trace repo base env tr).1

theorem merge_resolve_trace2 (repo : Repo) (base : String) (env : GitEnv)
    (tr : List Cmd) :
    (merge_resolve repo base env tr).2 = (merge_resolve repo base env []).2 :=
  (merge_resolve_trace repo base env tr).2

theorem merge_resolve_ok_cases {repo : Repo} {base : String} {env : GitEnv}
    {tr : List Cmd} {m : Merge} {wt : WorkTree}
    (h : (merge_resolve repo base env tr).2 = Except.ok (m, wt)) :
    (m = Merge.unmerged ∧ wt = WorkTree.atBase)
    ∨ (m = Merge.merged ∧ wt = WorkTree.mergedTree)
    ∨ (m = Merge.conflicted ∧ wt = WorkTree.atBase) := by
  cases hpar : repo.parent
  · simp [merge_resolve, hpar] at h
    obtain ⟨hm2, hw2⟩ := h
    subst hm2
    subst hw2
    decide
  · cases h1 : env.fetch_parent
    · simp [merge_resolve, hpar, run_git, andThen, h1] at h
    · cases h2 : env.checkout_try_merge
      · simp [merge_resolve, hpar, run_git, andThen, h1, h2] at h
      · cases h3 : env.reset_to_base
        · simp [merge_resolve, hpar, run_git, andThen, h1, h2, h3] at h
        · cases hm : env.merge
          · cases hco : env.checkout_ours <;> cases had : env.add_document <;>
              cases hmc : env.merge_continue <;>
              cases hab : env.merge_abort <;> cases hra : env.reset_after_abort <;>
              simp [merge_resolve, hpar, run_git, andThen, override_continue,
                h1, h2, h3, hm, hco, had, hmc, hab, hra] at h <;>
              obtain ⟨hm2, hw2⟩ := h <;> subst hm2 <;> subst hw2 <;> decide
          · simp [merge_resolve, hpar, run_git, andThen, h1, h2, h3, hm] at h
            obtain ⟨hm2, hw2⟩ := h
            subst hm2
            subst hw2
            decide

theorem build_phase_trace1 (repo : Repo) (base : String) (env : GitEnv)
    (wt : WorkTree) (tr : List Cmd) :
    (build_phase repo base env wt tr).1 = tr ++ (build_phase repo base env wt []).1 := by
  cases hpar : repo.parent <;> cases hb1 : env.build1 <;> cases hrr : env.reset_retry <;>
    simp [build_phase, hpar, run_git, run_tool, andThen, hb1, hrr, List.append_assoc]

theorem build_phase_trace2 (repo : Repo) (base : String) (env : GitEnv)
    (wt : WorkTree) (tr : List Cmd) :
    (build_phase repo base env wt tr).2 = (build_phase repo base env wt []).2 := by
  cases hpar : repo.parent <;> cases hb1 : env.build1 <;> cases hrr : env.reset_retry <;>
    simp [build_phase, hpar, run_git, run_tool, andThen, hb1, hrr]

/-- C2: with no parent the outcome is Unmerged, no command is issued and
the working copy stays at the base revision.  With a parent and the
integration setup commands succeeding: a successful automatic merge, or
a successful override-and-continue after a conflict, reports Merged with
the working copy at the merged tree; when the override also fails and
the abort and reset commands succeed, the trace ends with merge --abort
followed by a hard reset to the base hash and the outcome is Conflicted
with the working copy back at the base.  An ok outcome never leaves the
working copy mid-merge: Merged sits at the merged tree, everything else
at the base revision. -/
theorem merge_resolve_spec (repo : Repo) (base : String) (env : GitEnv)
    (tr : List Cmd) :
    (repo.parent = none →
      merge_resolve repo base env tr = (tr, Except.ok (Merge.unmerged, WorkTree.atBase)))
    ∧ (∀ p, repo.parent = some p →
        env.fetch_parent = true → env.checkout_try_merge = true →
        env.reset_to_base = true →
        ((env.merge = true →
            (merge_resolve repo base env tr).2
              = Except.ok (Merge.merged, WorkTree.mergedTree))
         ∧ (env.merge = false →
            (env.checkout_ours && env.add_document && env.merge_continue) = true →
            (merge_resolve repo base env tr).2
              = Except.ok (Merge.merged, WorkTree.mergedTree))
         ∧ (env.merge = false →
            (env.checkout_ours && env.add_document && env.merge_continue) = false →
            env.merge_abort = true → env.reset_after_abort = true →
            ((merge_resolve repo base env tr).2
                = Except.ok (Merge.conflicted, WorkTree.atBase)
             ∧ ∃ tr0, (merge_resolve repo base env tr).1
                 = tr0 ++ [Cmd.git ["merge", "--abort"],
                     Cmd.git ["reset", base, "--hard"]]))))
    ∧ (∀ m wt, (merge_resolve repo base env tr).2 = Except.ok (m, wt) →
        wt ≠ WorkTree.midMerge
        ∧ (m = Merge.merged → wt = WorkTree.mergedTree)
        ∧ (m ≠ Merge.merged → wt = WorkTree.atBase)) := by
  refine ⟨?_, ?_, ?_⟩
  · intro h
    simp [merge_resolve, h]
  · intro p hp h1 h2 h3
    refine ⟨?_, ?_, ?_⟩
    · intro hm
      simp [merge_resolve, hp, run_git, andThen, h1, h2, h3, hm]
    · intro hm hov
      have hco : env.checkout_ours = true := by
        cases hb : env.checkout_ours
        · simp [hb] at hov
        · rfl
      have had : env.add_document = true := by
        cases hb : env.add_document
        · simp [hb] at hov
        · rfl
      have hmc : env.merge_continue = true := by
        cases hb : env.merge_continue
        · simp [hb] at hov
        · rfl
      simp [merge_resolve, hp, run_git, andThen, h1, h2, h3, hm,
        override_continue, hco, had, hmc]
    · intro hm hov hab hra
      cases hco : env.checkout_ours
      · refine ⟨by simp [merge_resolve, hp, run_git, andThen, h1, h2, h3, hm,
          override_continue, hco, hab, hra], ?_⟩
        refine ⟨tr ++ [Cmd.git ["fetch", "parent"], Cmd.git ["checkout", "try-merge"],
          Cmd.git ["reset", base, "--hard"],
          Cmd.git ["merge", "-q", "parent/master", "-m",
            "Merging " ++ repo.name ++ ":" ++ base ++ "with " ++ p],
          Cmd.git ["checkout", "--ours", "document"]], ?_⟩
        simp [merge_resolve, hp, run_git, andThen, override_continue,
          h1, h2, h3, hm, hco, hab, hra, List.append_assoc]
      · cases had : env.add_document
        · refine ⟨by simp [merge_resolve, hp, run_git, andThen, h1, h2, h3, hm,
            override_continue, hco, had, hab, hra], ?_⟩
          refine ⟨tr ++ [Cmd.git ["fetch", "parent"], Cmd.git ["checkout", "try-merge"],
            Cmd.git ["reset", base, "--hard"],
            Cmd.git ["merge", "-q", "parent/master", "-m",
              "Merging " ++ repo.name ++ ":" ++ base ++ "with " ++ p],
            Cmd.git ["checkout", "--ours", "document"],
            Cmd.git ["add", "document"]], ?_⟩
          simp [merge_resolve, hp, run_git, andThen, override_continue,
            h1, h2, h3, hm, hco, had, hab, hra, List.append_assoc]
        · cases hmc : env.merge_continue
          · refine ⟨by simp [merge_resolve, hp, run_git, andThen, h1, h2, h3, hm,
              override_continue, hco, had, hmc, hab, hra], ?_⟩
            refine ⟨tr ++ [Cmd.git ["fetch", "parent"], Cmd.git ["checkout", "try-merge"],
              Cmd.git ["reset", base, "--hard"],
              Cmd.git ["merge", "-q", "parent/master", "-m",
                "Merging " ++ repo.name ++ ":" ++ base ++ "with " ++ p],
              Cmd.git ["checkout", "--ours", "document"], Cmd.git ["add", "document"],
              Cmd.git ["-c", "core.editor=true", "merge", "--continue"]], ?_⟩
            simp [merge_resolve, hp, run_git, andThen, override_continue,
              h1, h2, h3, hm, hco, had, hmc, hab, hra, List.append_assoc]
          · exact absurd hov (by simp [hco, had, hmc])
  · intro m wt h
    rcases merge_resolve_ok_cases h with ⟨hm2, hw2⟩ | ⟨hm2, hw2⟩ | ⟨hm2, hw2⟩ <;>
      subst hm2 <;> subst hw2 <;>
      exact ⟨by decide, by decide, by decide⟩

/-- Witness for C2 at a concrete environment in which the merge
conflicts and the override-and-continue also fails. -/
theorem merge_resolve_spec_witness :
    (merge_resolve { name := "r", url := "u" } "abc1234" { } []).2
      = Except.ok (Merge.unmerged, WorkTree.atBase)
    ∧ (merge_resolve { name := "r", url := "u", parent := some "p" } "abc1234"
        { merge := false, merge_continue := false } []).2
      = Except.ok (Merge.conflicted, WorkTree.atBase) := by
  refine ⟨?_, ?_⟩
  · have h := (merge_resolve_spec { name := "r", url := "u" } "abc1234" { } []).1 rfl
    rw [h]
  · exact ((merge_resolve_spec { name := "r", url := "u", parent := some "p" }
      "abc1234" { merge := false, merge_continue := false } []).2.1 "p"
      rfl rfl rfl rfl).2.2 rfl rfl rfl rfl |>.1

/-- C3: a successful first tool invocation means exactly one invocation;
when the tool fails and a parent is configured and the recovery reset
succeeds, a hard reset to the base hash is issued and the tool is
retried exactly once (two invocations in total, built being the retry
outcome, the working copy the unmerged baseline, with no third attempt
even when the retry fails); when the tool fails with no parent, built is
false after exactly one invocation with no reset; the trace never holds
more than two tool invocations, and build failure alone never yields an
error for the repository. -/
theorem build_phase_spec (repo : Repo) (base : String) (env : GitEnv)
    (wt : WorkTree) :
    (env.build1 = true →
      build_phase repo base env wt [] = ([Cmd.tool], Except.ok (true, wt)))
    ∧ (env.build1 = false → ∀ p, repo.parent = some p → env.reset_retry = true →
        build_phase repo base env wt []
          = ([Cmd.tool, Cmd.git ["reset", base, "--hard"], Cmd.tool],
             Except.ok (env.build2, WorkTree.atBase)))
    ∧ (env.build1 = false → repo.parent = none →
        build_phase repo base env wt [] = ([Cmd.tool], Except.ok (false, wt)))
    ∧ ((repo.parent = none ∨ env.reset_retry = true) →
        ∃ r, (build_phase repo base env wt []).2 = Except.ok r)
    ∧ (build_phase repo base env wt []).1.count Cmd.tool ≤ 2 := by
  refine ⟨?_, ?_, ?_, ?_, ?_⟩
  · intro h1
    simp [build_phase, run_tool, h1]
  · intro h1 p hp hrr
    simp [build_phase, run_tool, run_git, andThen, h1, hp, hrr]
  · intro h1 hp
    simp [build_phase, run_tool, h1, hp]
  · intro h
    cases h1 : env.build1
    · rcases h with hp | hrr
      · exact ⟨(false, wt), by simp [build_phase, run_tool, h1, hp]⟩
      · cases hpar : repo.parent
        · exact ⟨(false, wt), by simp [build_phase, run_tool, h1, hpar]⟩
        · exact ⟨(env.build2, WorkTree.atBase), by
            simp [build_phase, run_tool, run_git, andThen, h1, hpar, hrr]⟩
    · exact ⟨(true, wt), by simp [build_phase, run_tool, h1]⟩
  · cases h1 : env.build1 <;> cases hpar : repo.parent <;> cases hrr : env.reset_retry <;>
      simp [build_phase, run_tool, run_git, andThen, h1, hpar, hrr, List.count_cons]

/-- Witness for C3 at a concrete environment in which both tool
invocations fail for a child repository. -/
theorem build_phase_spec_witness :
    build_phase { name := "r", url := "u", parent := some "p" } "abc1234"
        { build1 := false, build2 := false } WorkTree.mergedTree []
      = ([Cmd.tool, Cmd.git ["reset", "abc1234", "--hard"], Cmd.tool],
         Except.ok (false, WorkTree.atBase)) := by
  exact (build_phase_spec { name := "r", url := "u", parent := some "p" } "abc1234"
    { build1 := false, build2 := false } WorkTree.mergedTree).2.1 rfl "p" rfl rfl

theorem merge_resolve_trace1_cons (repo : Repo) (base : String) (env : GitEnv)
    (a : Cmd) (tr : List Cmd) :
    (merge_resolve repo base env (a :: tr)).1
      = a :: (tr ++ (merge_resolve repo base env []).1) := by
  rw [merge_resolve_trace1]
  rfl

theorem build_phase_trace1_cons (repo : Repo) (base : String) (env : GitEnv)
    (wt : WorkTree) (a : Cmd) (tr : List Cmd) :
    (build_phase repo base env wt (a :: tr)).1
      = a :: (tr ++ (build_phase repo base env wt []).1) := by
  rw [build_phase_trace1]
  rfl

theorem build_repo_ok_inversion {repo : Repo} {config : Config} {lock : Lock}
    {env : GitEnv} {fs : FsEnv} {r : RunResult}
    (h : (build_repo repo config lock env fs).2 = Except.ok r) :
    ∃ out mr bw msg,
      env.log_base_hash = some out
      ∧ (merge_resolve repo (trim_string out) env []).2 = Except.ok mr
      ∧ (build_phase repo (trim_string out) env mr.2 []).2 = Except.ok bw
      ∧ env.log_final_message = some msg
      ∧ r = {
          status := {
            commit_base_hash := trim_string out,
            commit_final_message := msg,
            merged := mr.1,
            built := bw.1 },
          base_treeish := (lock.find_commit repo.name).getD "origin/master",
          work_tree_after_merge := mr.2,
          work_tree_final := bw.2,
          changed := changed_files repo fs,
          included_files := changed_files repo fs ++ ["harness/"] ++ repo.included_tests,
          excluded_files := config.excluded_tests ++ repo.excluded_tests,
          copies := copy_phase repo bw.1,
          writes := if bw.1 && !repo.skip_js then directive_writes config repo
            else [] } := by
  simp only [build_repo] at h
  obtain ⟨u1, h1, h⟩ := andThen_ok h
  obtain ⟨u2, h2, h⟩ := andThen_ok h
  obtain ⟨u3, h3, h⟩ := andThen_ok h
  obtain ⟨out, h4, h⟩ := andThen_ok h
  obtain ⟨mr, h5, h⟩ := andThen_ok h
  obtain ⟨bw, h6, h⟩ := andThen_ok h
  obtain ⟨msg, h7, h⟩ := andThen_ok h
  simp only [Except.ok.injEq] at h
  have hout : env.log_base_hash = some out := by
    cases hlb : env.log_base_hash <;> simp [run_git_out, hlb] at h4 <;> simp [h4]
  have hmsg : env.log_final_message = some msg := by
    cases hlf : env.log_final_message <;> simp [run_git_out, hlf] at h7 <;> simp [h7]
  rw [merge_resolve_trace2] at h5
  rw [build_phase_trace2] at h6
  exact ⟨out, mr, bw, msg, hout, h5, h6, hmsg, h.symm⟩

/-- C6: whenever build_repo succeeds, the base revision it used is the
lock entry pinned for the repository name when one is present and the
upstream default branch tip origin/master otherwise, and the recorded
commitBaseHash is the trimmed output of the log command run afterwards;
moreover, with the sync commands succeeding, the command trace starts
with fetch origin, a checkout of master, a hard reset to exactly that
base revision, and the short-hash log. -/
theorem sync_base_revision_spec (repo : Repo) (config : Config) (lock : Lock)
    (env : GitEnv) (fs : FsEnv) :
    (∀ r, (build_repo repo config lock env fs).2 = Except.ok r →
        r.base_treeish = (lock.find_commit repo.name).getD "origin/master"
        ∧ (∀ c, lock.find_commit repo.name = some c → r.base_treeish = c)
        ∧ (lock.find_commit repo.name = none → r.base_treeish = "origin/master")
        ∧ ∃ out, env.log_base_hash = some out
            ∧ r.status.commit_base_hash = trim_string out)
    ∧ (env.fetch_origin = true → env.checkout_master = true →
        env.reset_base = true →
        ∃ rest, (build_repo repo config lock env fs).1
          = Cmd.git ["fetch", "origin"] :: Cmd.git ["checkout", "master"]
            :: Cmd.git ["reset", (lock.find_commit repo.name).getD "origin/master",
                 "--hard"]
            :: Cmd.git ["log", "--pretty=%h", "-n", "1"] :: rest) := by
  constructor
  · intro r h
    obtain ⟨out, mr, bw, msg, hout, h5, h6, hmsg, hr⟩ := build_repo_ok_inversion h
    subst hr
    refine ⟨rfl, ?_, ?_, out, hout, rfl⟩
    · intro c hc
      simp [hc]
    · intro hc
      simp [hc]
  · intro hfo hcm hrb
    cases hlb : env.log_base_hash
    · refine ⟨[], ?_⟩
      simp [build_repo, run_git, run_git_out, andThen, hfo, hcm, hrb, hlb]
    · rename_i out
      cases hmr : (merge_resolve repo (trim_string out) env []).2
      · refine ⟨(merge_resolve repo (trim_string out) env []).1, ?_⟩
        simp [build_repo, run_git, run_git_out, andThen_eq, hfo, hcm, hrb, hlb,
          merge_resolve_trace1_cons, merge_resolve_trace2, hmr]
      · rename_i mr
        cases hbp : (build_phase repo (trim_string out) env mr.2 []).2
        · refine ⟨(merge_resolve repo (trim_string out) env []).1
            ++ (build_phase repo (trim_string out) env mr.2 []).1, ?_⟩
          simp [build_repo, run_git, run_git_out, andThen_eq, hfo, hcm, hrb, hlb,
            merge_resolve_trace1_cons, merge_resolve_trace2, hmr,
            build_phase_trace1_cons, build_phase_trace2, hbp, List.append_assoc]
        · rename_i bw
          refine ⟨(merge_resolve repo (trim_string out) env []).1
            ++ (build_phase repo (trim_string out) env mr.2 []).1
            ++ [Cmd.git ["log", "--oneline", "-n", "1"]], ?_⟩
          cases hlf : env.log_final_message <;>
            simp [build_repo, run_git, run_git_out, andThen_eq, hfo, hcm, hrb, hlb,
              merge_resolve_trace1_cons, merge_resolve_trace2, hmr,
              build_phase_trace1_cons, build_phase_trace2, hbp, hlf,
              List.append_assoc]

/-- Witness for C6 at a concrete lock store holding an entry for the
repository. -/
theorem sync_base_revision_spec_witness :
    ∃ rest,
      (build_repo { name := "r", url := "u" } {} ⟨[⟨"r", "c0ffee1"⟩]⟩ {}
        ⟨[], fun _ => none⟩).1
        = Cmd.git ["fetch", "origin"] :: Cmd.git ["checkout", "master"]
          :: Cmd.git ["reset", "c0ffee1", "--hard"]
          :: Cmd.git ["log", "--pretty=%h", "-n", "1"] :: rest := by
  have h := (sync_base_revision_spec { name := "r", url := "u" } {}
    ⟨[⟨"r", "c0ffee1"⟩]⟩ {} ⟨[], fun _ => none⟩).2 rfl rfl rfl
  simpa using h

/-- C7: the source-tests copy is attempted exactly when the repository
has not opted out of it, regardless of build outcome; the generated
web-platform-tests and script-tests copies are attempted exactly when
the build succeeded and the repository has not opted out of that
category; and a successful build_repo run attempts exactly those
copies. -/
theorem copy_categories_spec (repo : Repo) (built : Bool) :
    ("wast" ∈ copy_phase repo built ↔ repo.skip_wast = false)
    ∧ ("wpt" ∈ copy_phase repo built ↔ built = true ∧ repo.skip_wpt = false)
    ∧ ("js" ∈ copy_phase repo built ↔ built = true ∧ repo.skip_js = false)
    ∧ (∀ config lock env fs r,
        (build_repo repo config lock env fs).2 = Except.ok r →
        r.status.built = built → r.copies = copy_phase repo built) := by
  refine ⟨?_, ?_, ?_, ?_⟩
  · cases hw : repo.skip_wast <;> cases built <;>
      cases hp : repo.skip_wpt <;> cases hj : repo.skip_js <;>
      simp [copy_phase, hw, hp, hj]
  · cases hw : repo.skip_wast <;> cases built <;>
      cases hp : repo.skip_wpt <;> cases hj : repo.skip_js <;>
      simp [copy_phase, hw, hp, hj]
  · cases hw : repo.skip_wast <;> cases built <;>
      cases hp : repo.skip_wpt <;> cases hj : repo.skip_js <;>
      simp [copy_phase, hw, hp, hj]
  · intro config lock env fs r h hb
    obtain ⟨out, mr, bw, msg, hout, h5, h6, hmsg, hr⟩ := build_repo_ok_inversion h
    subst hr
    simp only at hb
    rw [← hb]

/-- Witness for C7 at a concrete skip-js repository with a failed
build. -/
theorem copy_categories_spec_witness :
    ("wast" ∈ copy_phase { name := "r", url := "u", skip_js := true } false)
    ∧ ¬ ("js" ∈ copy_phase { name := "r", url := "u", skip_js := true } true) := by
  constructor
  · exact (copy_categories_spec { name := "r", url := "u", skip_js := true }
      false).1.mpr rfl
  · intro hmem
    have h := (copy_categories_spec { name := "r", url := "u", skip_js := true }
      true).2.2.1.mp hmem
    simp at h

theorem directives_paths_ne (n : String) :
    ("tests/js/" ++ n ++ "/directives.txt")
      ≠ ("tests/js/" ++ n ++ "/harness/directives.txt") := by
  intro hh
  have h2 := congrArg String.data hh
  simp only [String.data_append] at h2
  have h3 := List.append_cancel_left h2
  exact absurd h3 (by decide)

/-- C8: a successful build_repo run with built true and script tests not
skipped emits exactly the directive writes; a configured global harness
directive is written verbatim to tests/js/<name>/harness/directives.txt;
the global and repository directive strings are concatenated with the
global one first, and the result is written to
tests/js/<name>/directives.txt iff it is non-empty. -/
theorem directive_emission_spec (config : Config) (repo : Repo) :
    (∀ lock env fs r, (build_repo repo config lock env fs).2 = Except.ok r →
        r.status.built = true → repo.skip_js = false →
        r.writes = directive_writes config repo)
    ∧ (∀ hd, config.harness_directive = some hd →
        ("tests/js/" ++ repo.name ++ "/harness/directives.txt", hd)
          ∈ directive_writes config repo)
    ∧ (("tests/js/" ++ repo.name ++ "/directives.txt",
          (config.directive.getD "") ++ (repo.directive.getD ""))
          ∈ directive_writes config repo
        ↔ (config.directive.getD "") ++ (repo.directive.getD "") ≠ "") := by
  refine ⟨?_, ?_, ?_⟩
  · intro lock env fs r h hb hskip
    obtain ⟨out, mr, bw, msg, hout, h5, h6, hmsg, hr⟩ := build_repo_ok_inversion h
    subst hr
    simp only at hb
    simp [hb, hskip]
  · intro hd hhd
    simp [directive_writes, hhd]
  · cases hd0b : ((config.directive.getD "") ++ (repo.directive.getD "") == "")
    · have hd0 : (config.directive.getD "") ++ (repo.directive.getD "") ≠ "" := by
        simpa using hd0b
      cases hhd : config.harness_directive <;>
        simp [directive_writes, hhd, hd0b, hd0]
    · have hd0 : (config.directive.getD "") ++ (repo.directive.getD "") = "" := by
        simpa using hd0b
      cases hhd : config.harness_directive
      · simp [directive_writes, hhd, hd0b, hd0]
      · rename_i hd
        constructor
        · intro hmem
          exfalso
          have hmem2 : ("tests/js/" ++ repo.name ++ "/directives.txt")
              = ("tests/js/" ++ repo.name ++ "/harness/directives.txt")
              ∧ ((config.directive.getD "") ++ (repo.directive.getD "")) = hd := by
            simpa [directive_writes, hhd, hd0b, Prod.ext_iff] using hmem
          exact directives_paths_ne repo.name hmem2.1
        · intro hne
          exact absurd hd0 hne

/-- The global configuration used by the C8 witness. -/
def c8_config : Config :=
  { harness_directive := some "H", directive := some "G" }

/-- The repository used by the C8 witness. -/
def c8_repo : Repo :=
  { name := "r", url := "u", directive := some "R" }

/-- The run result build_repo produces for the C8 witness at the default
environment. -/
def c8_result : RunResult :=
  { status := {
      commit_base_hash := "abc1234",
      commit_final_message := "abc1234 message",
      merged := Merge.unmerged,
      built := true },
    base_treeish := "origin/master",
    work_tree_after_merge := WorkTree.atBase,
    work_tree_final := WorkTree.atBase,
    changed := [],
    included_files := ["harness/"],
    excluded_files := [],
    copies := ["wast", "wpt", "js"],
    writes := [("tests/js/r/harness/directives.txt", "H"),
      ("tests/js/r/directives.txt", "GR")] }

/-- Witness for C8 at a concrete configuration with a harness directive
and both directive strings set. -/
theorem directive_emission_spec_witness :
    c8_result.writes = directive_writes c8_config c8_repo
    ∧ ("tests/js/" ++ c8_repo.name ++ "/harness/directives.txt", "H")
        ∈ directive_writes c8_config c8_repo
    ∧ ("tests/js/" ++ c8_repo.name ++ "/directives.txt",
        (c8_config.directive.getD "") ++ (c8_repo.directive.getD ""))
        ∈ directive_writes c8_config c8_repo := by
  refine ⟨(directive_emission_spec c8_config c8_repo).1 ⟨[]⟩ {}
      ⟨[], fun _ => none⟩ c8_result rfl rfl rfl,
    (directive_emission_spec c8_config c8_repo).2.1 "H" rfl,
    (directive_emission_spec c8_config c8_repo).2.2.mpr (by decide)⟩

/-! The run loop and process exit behavior of fn main (lines 202-241). -/

/-- Observable outcome of one run of main: the process exit status, the
failure lines printed, and the lock store persisted to config-lock.toml
(none when the run aborted without persisting). -/
structure MainOutcome where
  exit_code : Nat
  printed_failures : List (String × Error)
  persisted : Option Lock
  deriving Repr

/-- Mirrors the for loop of main: each repository pipeline outcome is
appended to the success or to the failure list, in configuration order.
The per-repository pipeline is abstracted as a function from the
repository to its status result. -/
def run_loop (repos : List Repo) (build : Repo → Except Error Status) :
    List (String × Status) × List (String × Error) :=
  repos.foldl
    (fun acc repo =>
      match build repo with
      | Except.ok st => (acc.1 ++ [(repo.name, st)], acc.2)
      | Except.error e => (acc.1, acc.2 ++ [(repo.name, e)]))
    ([], [])

/-- The successes the loop accumulates: name and status of every
repository whose pipeline returned ok, in order. -/
def loop_successes (repos : List Repo) (build : Repo → Except Error Status) :
    List (String × Status) :=
  repos.filterMap fun r =>
    match build r with
    | Except.ok st => some (r.name, st)
    | Except.error _ => none

/-- The failures the loop accumulates: name and error of every
repository whose pipeline failed, in order. -/
def loop_failures (repos : List Repo) (build : Repo → Except Error Status) :
    List (String × Error) :=
  repos.filterMap fun r =>
    match build r with
    | Except.ok _ => none
    | Except.error e => some (r.name, e)

/-- Mirrors the tail of main (lines 214-241): with any accumulated
failure, print every failure and exit 1 without persisting the lock;
otherwise update the lock with one set_commit per success and persist it
once, exiting 0. -/
def main_run (repos : List Repo) (build : Repo → Except Error Status)
    (lock : Lock) : MainOutcome :=
  let sf := run_loop repos build
  if sf.2.isEmpty then
    let lock := sf.1.foldl (fun lk x => lk.set_commit x.1 x.2.commit_base_hash) lock
    { exit_code := 0, printed_failures := [], persisted := some lock }
  else
    { exit_code := 1, printed_failures := sf.2, persisted := none }

theorem run_loop_go (build : Repo → Except Error Status) :
    ∀ (repos : List Repo) (s : List (String × Status)) (f : List (String × Error)),
      repos.foldl
        (fun acc repo =>
          match build repo with
          | Except.ok st => (acc.1 ++ [(repo.name, st)], acc.2)
          | Except.error e => (acc.1, acc.2 ++ [(repo.name, e)]))
        (s, f)
      = (s ++ loop_successes repos build, f ++ loop_failures repos build)
  | [], s, f => by simp [loop_successes, loop_failures]
  | r :: rs, s, f => by
    cases hb : build r <;>
      simp [loop_successes, loop_failures, List.filterMap_cons, hb,
        run_loop_go build rs, List.append_assoc]

theorem run_loop_eq (repos : List Repo) (build : Repo → Except Error Status) :
    run_loop repos build = (loop_successes repos build, loop_failures repos build) := by
  simpa [run_loop] using run_loop_go build repos [] []

/-- C1: when at least one repository pipeline ends in a fatal error, the
run prints every accumulated failure with its repository name and error
detail, exits with the non-zero status 1, and persists no lock store;
when every repository succeeds, the run exits with status 0 and persists
the lock store once, updated by exactly one set_commit per
successfully-processed repository, in order, mapping its name to that
repository's commitBaseHash. -/
theorem main_exit_spec (repos : List Repo) (build : Repo → Except Error Status)
    (lock : Lock) :
    ((∃ r ∈ repos, ∃ e, build r = Except.error e) →
      (main_run repos build lock).exit_code = 1
      ∧ (main_run repos build lock).persisted = none
      ∧ (main_run repos build lock).printed_failures = loop_failures repos build)
    ∧ ((∀ r ∈ repos, ∃ st, build r = Except.ok st) →
      (main_run repos build lock).exit_code = 0
      ∧ (main_run repos build lock).persisted
          = some ((loop_successes repos build).foldl
              (fun lk x => lk.set_commit x.1 x.2.commit_base_hash) lock)) := by
  constructor
  · rintro ⟨r, hr, e, he⟩
    have hmem : (r.name, e) ∈ loop_failures repos build := by
      apply List.mem_filterMap.mpr
      exact ⟨r, hr, by simp [he]⟩
    have hne : (loop_failures repos build).isEmpty = false := by
      cases hF : loop_failures repos build
      · rw [hF] at hmem
        simp at hmem
      · simp [hF]
    simp [main_run, run_loop_eq, hne]
  · intro hall
    have hF : loop_failures repos build = [] := by
      apply List.filterMap_eq_nil_iff.mpr
      intro r hr
      obtain ⟨st, hst⟩ := hall r hr
      simp [hst]
    simp [main_run, run_loop_eq, hF]

/-- The status the C1 witness build function returns for succeeding
repositories. -/
def c1_status : Status :=
  { commit_base_hash := "c1", commit_final_message := "m",
    merged := Merge.unmerged, built := true }

/-- The C1 witness build function: repository b fails, the rest
succeed. -/
def c1_build (r : Repo) : Except Error Status :=
  if r.name == "b" then Except.error Error.io else Except.ok c1_status

/-- Witness for C1: a two-repository run in which the second pipeline
fails, and a one-repository run that fully succeeds. -/
theorem main_exit_spec_witness :
    ((main_run [{ name := "a", url := "u" }, { name := "b", url := "u" }]
        c1_build ⟨[]⟩).exit_code = 1
      ∧ (main_run [{ name := "a", url := "u" }, { name := "b", url := "u" }]
          c1_build ⟨[]⟩).persisted = none)
    ∧ (main_run [{ name := "a", url := "u" }] c1_build ⟨[]⟩).exit_code = 0 := by
  refine ⟨?_, ?_⟩
  · have h := (main_exit_spec [{ name := "a", url := "u" },
      { name := "b", url := "u" }] c1_build ⟨[]⟩).1
      ⟨{ name := "b", url := "u" }, by simp, Error.io, rfl⟩
    exact ⟨h.1, h.2.1⟩
  · exact ((main_exit_spec [{ name := "a", url := "u" }] c1_build ⟨[]⟩).2
      (fun r hr => by
        have hr2 : r = { name := "a", url := "u" } := by simpa using hr
        subst hr2
        exact ⟨c1_status, rfl⟩)).1

end SuiteGen
